import Mathlib

/-!
Verification of `redis_timeseries.py` (python-redis-timeseries).

The module is embedded shallowly: timestamps are epoch seconds as `Int`
(Python's `dt_to_unix`/`unix_to_dt` translate between `datetime` and epoch
seconds and are bijective on the instants involved, so all reasoning happens
on epoch integers), Python `//` floor division is `Int.fdiv`, the Redis
client is a `Store` record, and a pipeline is a list of queued commands.
Exceptions (`KeyError` from an unknown granularity name, `ValueError` from
the count check) become an `Except Err` result.
-/

namespace RedisTimeseries

/-- Time-unit helper from the module: seconds are the base unit. -/
def seconds (i : Int) : Int := i

/-- Time-unit helper: minutes in seconds. -/
def minutes (i : Int) : Int := i * seconds 60

/-- Time-unit helper: hours in seconds. -/
def hours (i : Int) : Int := i * minutes 60

/-- Time-unit helper: days in seconds. -/
def days (i : Int) : Int := i * hours 24

/-- Properties of one granularity, the dict `\x7b'ttl': ..., 'duration': ...\x7d`. -/
structure GranProps where
  ttl : Int
  duration : Int
deriving DecidableEq

/-- The granularity table, an `OrderedDict`: an association list from
granularity name to properties; insertion order is preserved and keys are
unique (`Nodup` over the names is the `OrderedDict` invariant). -/
abbrev GranTable := List (String × GranProps)

/-- The class-level default granularity table of `TimeSeries`. -/
def defaultGranularities : GranTable :=
  [("1minute", ⟨hours 1, minutes 1⟩),
   ("5minute", ⟨hours 6, minutes 5⟩),
   ("10minute", ⟨hours 12, minutes 10⟩),
   ("1hour", ⟨days 7, hours 1⟩),
   ("1day", ⟨days 7, days 1⟩)]

/-- Dictionary lookup `self.granularities[granularity]`: the entry whose name
matches, `none` modelling the `KeyError` raised for an unknown name. -/
def lookupGran (tbl : GranTable) (name : String) : Option GranProps :=
  (tbl.find? (fun p => p.1 == name)).map Prod.snd

/-- Errors raised by the module: `configError` models the `KeyError` from an
unknown granularity name (the spec's `ConfigurationError`); `rangeError`
models `ValueError('Count exceeds granularity limit')` (the spec's
`RangeError`). -/
inductive Err where
  | configError
  | rangeError
deriving DecidableEq

/-- Function `round_time(dt, precision)`: the timestamp's epoch seconds are
floored to a multiple of `precision`; Python `//` on integers is `Int.fdiv`. -/
def round_time (ts precision : Int) : Int := (Int.fdiv ts precision) * precision

/-- The string built by `get_key`: `':'.join([base_key, granularity,
str(epoch), str(key)])`. -/
def key_join (bk gname : String) (epoch : Int) (key : String) : String :=
  String.intercalate (":") [bk, gname, toString epoch, key]

/-- Method `get_key(key, timestamp, granularity)`: looks up the granularity's
ttl, rounds the timestamp to the ttl window, and joins the parts with `:`. -/
def get_key (bk : String) (tbl : GranTable) (key : String) (timestamp : Int)
    (granularity : String) : Except Err String :=
  match lookupGran tbl granularity with
  | .none => .error .configError
  | .some props => .ok (key_join bk granularity (round_time timestamp props.ttl) key)

/-- A queued store command: `HINCRBY key field amount` (the field is the
bucket epoch) or `EXPIRE key ttl`. -/
inductive Cmd where
  | hincrby (key : String) (field : Int) (amount : Int)
  | expire (key : String) (ttlVal : Int)
deriving DecidableEq

/-- The external store: hash values (`key -> field -> value`), per-key TTLs,
and the `KEYS pattern` listing kept as an oracle of the external collaborator. -/
structure Store where
  hashes : String → Int → Option Int
  ttls : String → Option Int
  keysFn : String → List String

/-- Effect of one command on the store. -/
def applyCmd (s : Store) : Cmd → Store
  | .hincrby k f a =>
      { s with hashes := fun k2 f2 =>
          if k2 = k ∧ f2 = f then some ((s.hashes k f).getD 0 + a)
          else s.hashes k2 f2 }
  | .expire k t => { s with ttls := fun k2 => if k2 = k then some t else s.ttls k2 }

/-- Effect of submitting one batch of commands, in order. -/
def applyCmds (s : Store) (cmds : List Cmd) : Store := cmds.foldl applyCmd s

/-- The `TimeSeries` instance state: base key, granularity table, and the
deferred pipeline `self.chain` as the list of commands queued so far. -/
structure TS where
  base_key : String
  granularities : GranTable
  chain : List Cmd

/-- The commands queued by `record_hit`: for each granularity in table order,
an `HINCRBY` of the shard key's hash field at the rounded bucket by `count`,
then an `EXPIRE` of the shard key to the granularity's ttl. The inner
`get_key` lookup cannot fail because the granularity name is drawn from the
table itself. -/
def record_hit_cmds (bk : String) (tbl : GranTable) (key : String) (ts cnt : Int) :
    List Cmd :=
  tbl.flatMap fun e =>
    match get_key bk tbl key ts e.1 with
    | .error _ => []
    | .ok hkey =>
        [Cmd.hincrby hkey (round_time ts e.2.duration) cnt, Cmd.expire hkey e.2.ttl]

/-- Method `record_hit(key, timestamp, count, execute)` with an explicit
timestamp. With `execute=True` a fresh pipeline is built, the commands are
queued on it and submitted as one batch; the third component is the list of
batches submitted during the call. With `execute=False` the commands are
appended to `self.chain` and nothing is submitted. -/
def record_hit (e : TS) (s : Store) (key : String) (ts cnt : Int) (execute : Bool) :
    TS × Store × List (List Cmd) :=
  let cmds := record_hit_cmds e.base_key e.granularities key ts cnt
  if execute then (e, applyCmds s cmds, [cmds])
  else ({ e with chain := e.chain ++ cmds }, s, [])

/-- Method `execute()`: submits the deferred chain as one batch and resets it
to a fresh pipeline. -/
def flush_chain (e : TS) (s : Store) : TS × Store × List (List Cmd) :=
  ({ e with chain := [] }, applyCmds s e.chain, [e.chain])

/-- Function `parse_result(val)`: a missing field (`None`) parses as 0,
otherwise the stored integer. -/
def parse_result (val : Option Int) : Int := val.getD 0

/-- The bucket enumeration shared by `get_hits` and `scan_keys`: `bucket`
starts at `round_time(timestamp, duration) - count * duration` and is advanced
by `duration` before each use, giving `count` buckets that end at the rounded
anchor. -/
def hit_buckets (anchor d : Int) (count : Nat) : List Int :=
  (List.range count).map fun (i : Nat) =>
    anchor - (count : Int) * d + ((i : Int) + 1) * d

/-- Method `get_hits(key, granularity, count, timestamp)`: after the count
check against `ttl // duration`, one `HGET get_key(key, bucket, granularity)
bucket` is issued per bucket in a single fresh-pipeline batch, missing fields
parse as 0, and the bucket times are zipped with the parsed results. The
engine state and the store are untouched. -/
def get_hits (e : TS) (s : Store) (key : String) (granularity : String)
    (count : Nat) (ts : Int) : Except Err (List (Int × Int)) :=
  match lookupGran e.granularities granularity with
  | .none => .error .configError
  | .some props =>
      if (count : Int) > Int.fdiv props.ttl props.duration then .error .rangeError
      else
        let buckets := hit_buckets (round_time ts props.duration) props.duration count
        let results := buckets.map fun b =>
          parse_result (match get_key e.base_key e.granularities key b granularity with
            | .error _ => none
            | .ok hkey => s.hashes hkey b)
        .ok (buckets.zip results)

/-- Method `get_total_hits(*args, **kwargs)`: the sum of the amounts returned
by `get_hits` on the same arguments; errors propagate unchanged. -/
def get_total_hits (e : TS) (s : Store) (key granularity : String) (count : Nat)
    (ts : Int) : Except Err Int :=
  (get_hits e s key granularity count ts).map fun l => (l.map Prod.snd).sum

/-- Method `scan_keys(granularity, count, search, timestamp)`: same count
check; for each bucket in the window the pattern key (series name replaced by
`search`) and the stripping key (series name replaced by the empty string) are
collected as sets (modelled as order-preserving deduplicated lists), one
`KEYS` call per pattern key is issued in one batch, the results are
concatenated, every stripping key is removed from every returned key, and the
distinct names are returned sorted. -/
def scan_keys (e : TS) (s : Store) (granularity : String) (count : Nat)
    (search : String) (ts : Int) : Except Err (List String) :=
  match lookupGran e.granularities granularity with
  | .none => .error .configError
  | .some props =>
      if (count : Int) > Int.fdiv props.ttl props.duration then .error .rangeError
      else
        let buckets := hit_buckets (round_time ts props.duration) props.duration count
        let hkeys := (buckets.map fun b =>
          match get_key e.base_key e.granularities search b granularity with
          | .error _ => ""
          | .ok k => k).dedup
        let pres := (buckets.map fun b =>
          match get_key e.base_key e.granularities ("") b granularity with
          | .error _ => ""
          | .ok k => k).dedup
        let results := hkeys.flatMap s.keysFn
        let parsed := (results.map fun r =>
          pres.foldl (fun acc p => acc.replace p ("")) r).dedup
        .ok (parsed.insertionSort (· ≤ ·))

/-- Concrete engine used to instantiate theorems: the defaults of
`TimeSeries.__init__` with an empty chain. -/
def ts0 : TS := ⟨"stats", defaultGranularities, []⟩

/-- Concrete empty store used to instantiate theorems. -/
def store0 : Store := ⟨fun _ _ => none, fun _ => none, fun _ => []⟩

/-- Modelled from the spec: `round_time_with_tz` is exercised by the
repository's tests but its implementation is not under `src/` (the module
there is the pre-timezone revision). Per spec section 4.1, timezone-aware
rounding computes the local-time offset at the instant, shifts the instant by
that offset, floors to the precision, then shifts back. `offsetAt` gives the
local UTC offset in seconds at a given instant (for US Eastern daylight time
it is constantly -4 hours over the July instants considered). -/
def round_time_with_tz (offsetAt : Int → Int) (ts precision : Int) : Int :=
  round_time (ts + offsetAt ts) precision - offsetAt ts

/-- Commands queued by `record_hit` when the timestamp is omitted
(`timestamp=None`): `None` is passed down unchanged, and every `round_time`
call resolves the current time itself through `dt or tz_now()`. `clock n` is
the instant returned by the `n`-th `tz_now()` call of this `record_hit` call;
each granularity makes two calls, the first inside `get_key` and the second
for the bucket. `tblAll` is the whole table (used by `get_key`'s lookup),
`rest` the entries still to process, `k` the index of the next clock call. -/
def record_hit_now_aux (bk : String) (tblAll rest : GranTable) (key : String)
    (clock : Nat → Int) (k : Nat) (cnt : Int) : List Cmd :=
  match rest with
  | [] => []
  | e :: rest2 =>
      (match get_key bk tblAll key (clock k) e.1 with
       | .error _ => []
       | .ok hkey =>
           [Cmd.hincrby hkey (round_time (clock (k + 1)) e.2.duration) cnt,
            Cmd.expire hkey e.2.ttl]) ++
      record_hit_now_aux bk tblAll rest2 key clock (k + 2) cnt

/-- The full command list of a `record_hit` call with the timestamp omitted,
under the clock oracle `clock`. -/
def record_hit_cmds_now (bk : String) (tbl : GranTable) (key : String)
    (clock : Nat → Int) (cnt : Int) : List Cmd :=
  record_hit_now_aux bk tbl tbl key clock 0 cnt

/-- A one-granularity table (the `1minute` shape: ttl one hour, duration one
minute), used to exhibit the lazy-resolution behaviour. -/
def tblOne : GranTable := [("1minute", ⟨3600, 60⟩)]

/-- A clock whose first reading is instant 0 and whose later readings are
instant 3600: the clock crosses a bucket boundary between the `get_key`
resolution and the bucket resolution. -/
def clockTick : Nat → Int := fun n => if n = 0 then 0 else 3600

/-- Claim C5: for every timestamp and positive precision, `round_time` is
idempotent, and `round_time t p` is the greatest multiple of `p` that does
not exceed `t` (floor to a multiple of `p`). -/
theorem round_time_floor (t p : Int) (hp : 0 < p) :
    round_time (round_time t p) p = round_time t p ∧
    round_time t p ≤ t ∧ p ∣ round_time t p ∧
    ∀ m : Int, p ∣ m → m ≤ t → m ≤ round_time t p := by
  have hp0 : (0 : Int) ≤ p := le_of_lt hp
  have hne : p ≠ 0 := ne_of_gt hp
  refine ⟨?_, ?_, ?_, ?_⟩
  · unfold round_time
    rw [Int.fdiv_eq_ediv _ hp0, Int.fdiv_eq_ediv _ hp0, Int.mul_ediv_cancel _ hne]
  · unfold round_time
    rw [Int.fdiv_eq_ediv _ hp0]
    exact Int.ediv_mul_le t hne
  · exact ⟨Int.fdiv t p, mul_comm _ _⟩
  · intro m hm hle
    obtain ⟨c, rfl⟩ := hm
    unfold round_time
    rw [Int.fdiv_eq_ediv _ hp0]
    have hc : c ≤ t / p := (Int.le_ediv_iff_mul_le hp).mpr (by linarith [hle])
    calc p * c = c * p := mul_comm _ _
      _ ≤ (t / p) * p := mul_le_mul_of_nonneg_right hc hp0

/-- Witness for C5 at `t = 130`, `p = 60`. -/
theorem round_time_floor_witness :
    round_time (round_time 130 60) 60 = round_time 130 60 ∧
    round_time 130 60 ≤ 130 ∧ (60 : Int) ∣ round_time 130 60 ∧
    ∀ m : Int, 60 ∣ m → m ≤ 130 → m ≤ round_time 130 60 :=
  round_time_floor 130 60 (by decide)

/-- Claim C4: for every base prefix, series name, granularity in the table and
timestamp, the shard key is the `:`-separated join of the base prefix, the
granularity name, the decimal rendering of `round_time t (ttl g)`, and the
series name, in that order; `get_key` is a function of its arguments, so equal
inputs always yield equal keys, and any two timestamps in the same
ttl-aligned window yield the same shard key. -/
theorem get_key_format (bk key gname : String) (tbl : GranTable) (t : Int)
    (props : GranProps) (h : lookupGran tbl gname = some props) :
    get_key bk tbl key t gname =
      .ok (String.intercalate (":")
        [bk, gname, toString (round_time t props.ttl), key]) ∧
    (∀ t2 : Int, Int.fdiv t props.ttl = Int.fdiv t2 props.ttl →
      get_key bk tbl key t gname = get_key bk tbl key t2 gname) := by
  constructor
  · simp [get_key, h, key_join]
  · intro t2 ht
    simp [get_key, h, key_join, round_time, ht]

/-- Witness for C4 on the default table, granularity `1hour`, `t = 12345`. -/
theorem get_key_format_witness :
    get_key ("stats") defaultGranularities ("event:123") 12345 ("1hour") =
      .ok (String.intercalate (":")
        [("stats"), ("1hour"), toString (round_time 12345 (days 7)), ("event:123")]) ∧
    (∀ t2 : Int, Int.fdiv 12345 (days 7) = Int.fdiv t2 (days 7) →
      get_key ("stats") defaultGranularities ("event:123") 12345 ("1hour") =
      get_key ("stats") defaultGranularities ("event:123") t2 ("1hour")) :=
  get_key_format ("stats") ("event:123") ("1hour") defaultGranularities 12345
    ⟨days 7, hours 1⟩ (by decide)

/-- Claim C8: calling any public operation that takes a granularity name
(`get_key`, `get_hits`, `get_total_hits`, `scan_keys`) with a name not in the
engine's granularity table yields the configuration error (the `KeyError` of
the dict lookup, the spec's `ConfigurationError`). -/
theorem unknown_granularity_error (e : TS) (s : Store) (key search gname : String)
    (count : Nat) (t : Int) (h : lookupGran e.granularities gname = none) :
    get_key e.base_key e.granularities key t gname = .error .configError ∧
    get_hits e s key gname count t = .error .configError ∧
    get_total_hits e s key gname count t = .error .configError ∧
    scan_keys e s gname count search t = .error .configError := by
  refine ⟨?_, ?_, ?_, ?_⟩ <;>
    simp [get_key, get_hits, get_total_hits, scan_keys, h, Except.map]

/-- Witness for C8: the name `2minute` is not in the default table. -/
theorem unknown_granularity_error_witness :
    get_key ts0.base_key ts0.granularities ("event:123") 0 ("2minute") =
      .error .configError ∧
    get_hits ts0 store0 ("event:123") ("2minute") 3 0 = .error .configError ∧
    get_total_hits ts0 store0 ("event:123") ("2minute") 3 0 = .error .configError ∧
    scan_keys ts0 store0 ("2minute") 3 ("*") 0 = .error .configError :=
  unknown_granularity_error ts0 store0 ("event:123") ("*") ("2minute") 3 0 (by decide)

/-- Claim C3: for a granularity of the table with positive duration, if
`count * duration > ttl` then both `get_hits` and `scan_keys` fail with the
range error for every store (so the result is independent of store state, and
no store command is issued — in this embedding the read paths return no store
at all); if `count * duration ≤ ttl`, neither raises the range error. -/
theorem range_limit_check (e : TS) (key search gname : String)
    (count : Nat) (t : Int) (props : GranProps)
    (hg : lookupGran e.granularities gname = some props)
    (hd : 0 < props.duration) :
    ((count : Int) * props.duration > props.ttl →
      ∀ s : Store, get_hits e s key gname count t = .error .rangeError ∧
        scan_keys e s gname count search t = .error .rangeError) ∧
    ((count : Int) * props.duration ≤ props.ttl →
      ∀ s : Store, get_hits e s key gname count t ≠ .error .rangeError ∧
        scan_keys e s gname count search t ≠ .error .rangeError) := by
  constructor
  · intro hmul s
    have hlt : Int.fdiv props.ttl props.duration < (count : Int) := by
      rw [Int.fdiv_eq_ediv _ hd.le]
      exact (Int.ediv_lt_iff_lt_mul hd).mpr hmul
    constructor <;> simp [get_hits, scan_keys, hg, hlt]
  · intro hle s
    have hnlt : ¬ Int.fdiv props.ttl props.duration < (count : Int) := by
      rw [Int.fdiv_eq_ediv _ hd.le]
      exact not_lt.mpr ((Int.le_ediv_iff_mul_le hd).mpr hle)
    constructor <;> simp [get_hits, scan_keys, hg, hnlt]

/-- Witness for C3 on `1minute` (ttl 3600, duration 60) and `count = 61`
(violating: 61 * 60 > 3600) as well as the boundary case inside the same
instantiation via the second conjunct. -/
theorem range_limit_check_witness :
    ((61 : Int) * 60 > 3600 →
      ∀ s : Store, get_hits ts0 s ("event:123") ("1minute") 61 0 = .error .rangeError ∧
        scan_keys ts0 s ("1minute") 61 ("*") 0 = .error .rangeError) ∧
    ((61 : Int) * 60 ≤ 3600 →
      ∀ s : Store, get_hits ts0 s ("event:123") ("1minute") 61 0 ≠ .error .rangeError ∧
        scan_keys ts0 s ("1minute") 61 ("*") 0 ≠ .error .rangeError) :=
  range_limit_check ts0 ("event:123") ("*") ("1minute") 61 0
    ⟨3600, 60⟩ (by decide) (by decide)

/-- Length of the bucket enumeration. -/
lemma hit_buckets_length (a d : Int) (n : Nat) : (hit_buckets a d n).length = n := by
  simp [hit_buckets]

/-- Closed form of the `i`-th bucket. -/
lemma hit_buckets_getD (a d : Int) (n i : Nat) (h : i < n) :
    (hit_buckets a d n).getD i 0 = a - (n : Int) * d + ((i : Int) + 1) * d := by
  simp [hit_buckets, List.getD_eq_getElem?_getD, List.getElem?_map,
    List.getElem?_range h]

/-- The buckets are strictly increasing when the duration is positive. -/
lemma hit_buckets_pairwise (a d : Int) (n : Nat) (hd : 0 < d) :
    (hit_buckets a d n).Pairwise (· < ·) := by
  refine List.Pairwise.map _ ?_ (List.pairwise_lt_range n)
  intro i j hij
  show a - (n : Int) * d + ((i : Int) + 1) * d <
    a - (n : Int) * d + ((j : Int) + 1) * d
  have hij2 : (i : Int) < (j : Int) := by exact_mod_cast hij
  have h1 : ((i : Int) + 1) * d < ((j : Int) + 1) * d :=
    mul_lt_mul_of_pos_right (by linarith) hd
  linarith

/-- In `l.zip (l.map f)` every pair's second component is `f` of its first. -/
lemma snd_of_mem_zip_map {α β : Type} (f : α → β) (l : List α) (pr : α × β)
    (h : pr ∈ l.zip (l.map f)) : pr.2 = f pr.1 := by
  induction l with
  | nil => simp at h
  | cons x tl ih =>
      rw [List.map_cons, List.zip_cons_cons, List.mem_cons] at h
      rcases h with h | h
      · simp [h]
      · exact ih h

/-- Reduction of `get_hits` in the non-error case: the result is the bucket
list zipped with the parsed `HGET` results, where each bucket `b` is fetched
from the shard key `get_key(key, b, granularity)` at field `b`. -/
lemma get_hits_ok (e : TS) (s : Store) (key gname : String) (count : Nat)
    (t : Int) (props : GranProps)
    (hg : lookupGran e.granularities gname = some props)
    (hnlt : ¬ Int.fdiv props.ttl props.duration < (count : Int)) :
    get_hits e s key gname count t =
      .ok ((hit_buckets (round_time t props.duration) props.duration count).zip
        ((hit_buckets (round_time t props.duration) props.duration count).map
          fun b => parse_result
            (s.hashes (key_join e.base_key gname (round_time b props.ttl) key) b))) := by
  have hmatch : ∀ b : Int,
      (match get_key e.base_key e.granularities key b gname with
        | .error _ => none
        | .ok hkey => s.hashes hkey b) =
      s.hashes (key_join e.base_key gname (round_time b props.ttl) key) b := by
    intro b
    simp [get_key, hg]
  simp only [get_hits, hg, gt_iff_lt]
  rw [if_neg hnlt]
  simp only [hmatch]

/-- Claim C2: for every series name, granularity in the table (with positive
duration), count within the granularity limit, and anchor timestamp,
`get_hits` returns exactly `count` pairs whose bucket times are strictly
increasing, consecutive pairs spaced by exactly the duration (so ordered
oldest to newest), and the last bucket is the anchor's rounded bucket. -/
theorem get_hits_shape (e : TS) (s : Store) (key gname : String) (count : Nat)
    (t : Int) (props : GranProps)
    (hg : lookupGran e.granularities gname = some props)
    (hd : 0 < props.duration)
    (hcount : (count : Int) * props.duration ≤ props.ttl) :
    ∃ l : List (Int × Int),
      get_hits e s key gname count t = .ok l ∧
      l.length = count ∧
      (l.map Prod.fst).Pairwise (· < ·) ∧
      (∀ i : Nat, i + 1 < count →
        (l.map Prod.fst).getD (i + 1) 0 =
          (l.map Prod.fst).getD i 0 + props.duration) ∧
      (0 < count →
        (l.map Prod.fst).getD (count - 1) 0 = round_time t props.duration) := by
  have hnlt : ¬ Int.fdiv props.ttl props.duration < (count : Int) := by
    rw [Int.fdiv_eq_ediv _ hd.le]
    exact not_lt.mpr ((Int.le_ediv_iff_mul_le hd).mpr hcount)
  have hok := get_hits_ok e s key gname count t props hg hnlt
  have hfst : ((hit_buckets (round_time t props.duration) props.duration count).zip
      ((hit_buckets (round_time t props.duration) props.duration count).map
        fun b => parse_result
          (s.hashes (key_join e.base_key gname (round_time b props.ttl) key) b))).map
      Prod.fst = hit_buckets (round_time t props.duration) props.duration count :=
    List.map_fst_zip _ _ (by simp)
  refine ⟨_, hok, ?_, ?_, ?_, ?_⟩
  · simp [List.length_zip, hit_buckets_length]
  · rw [hfst]
    exact hit_buckets_pairwise _ _ _ hd
  · intro i hi
    rw [hfst, hit_buckets_getD _ _ _ _ hi, hit_buckets_getD _ _ _ _ (by omega)]
    push_cast
    ring
  · intro hc
    rw [hfst, hit_buckets_getD _ _ _ _ (by omega)]
    have hcast : ((count - 1 : Nat) : Int) + 1 = (count : Int) := by omega
    rw [hcast]
    ring

/-- Witness for C2 on `1minute`, `count = 3`, anchor `t = 130`. -/
theorem get_hits_shape_witness :
    ∃ l : List (Int × Int),
      get_hits ts0 store0 ("event:123") ("1minute") 3 130 = .ok l ∧
      l.length = 3 ∧
      (l.map Prod.fst).Pairwise (· < ·) ∧
      (∀ i : Nat, i + 1 < 3 →
        (l.map Prod.fst).getD (i + 1) 0 = (l.map Prod.fst).getD i 0 + 60) ∧
      (0 < 3 → (l.map Prod.fst).getD (3 - 1) 0 = round_time 130 60) :=
  get_hits_shape ts0 store0 ("event:123") ("1minute") 3 130 ⟨3600, 60⟩
    (by decide) (by decide) (by decide)

/-- Claim C6: a bucket whose hash field is absent from the store yields amount
zero (`parse_result` maps `None` to 0) rather than an error, and
`get_total_hits` is exactly the sum of the amounts returned by `get_hits` on
the same arguments, propagating the same errors. -/
theorem missing_fields_zero_total (e : TS) (s : Store) (key gname : String)
    (count : Nat) (t : Int) (props : GranProps)
    (hg : lookupGran e.granularities gname = some props)
    (hd : 0 < props.duration)
    (hcount : (count : Int) * props.duration ≤ props.ttl) :
    parse_result none = 0 ∧
    (∃ l : List (Int × Int),
      get_hits e s key gname count t = .ok l ∧
      (∀ pr ∈ l,
        s.hashes (key_join e.base_key gname (round_time pr.1 props.ttl) key) pr.1 =
          none → pr.2 = 0) ∧
      get_total_hits e s key gname count t = .ok ((l.map Prod.snd).sum)) ∧
    (∀ (err : Err) (e2 : TS) (s2 : Store) (key2 gname2 : String) (count2 : Nat)
      (t2 : Int),
      get_hits e2 s2 key2 gname2 count2 t2 = .error err →
      get_total_hits e2 s2 key2 gname2 count2 t2 = .error err) := by
  have hnlt : ¬ Int.fdiv props.ttl props.duration < (count : Int) := by
    rw [Int.fdiv_eq_ediv _ hd.le]
    exact not_lt.mpr ((Int.le_ediv_iff_mul_le hd).mpr hcount)
  have hok := get_hits_ok e s key gname count t props hg hnlt
  refine ⟨rfl, ⟨_, hok, ?_, ?_⟩, ?_⟩
  · intro pr hpr hnone
    have h2 := snd_of_mem_zip_map _ _ pr hpr
    rw [h2, hnone]
    rfl
  · simp [get_total_hits, hok, Except.map]
  · intro err e2 s2 key2 gname2 count2 t2 herr
    simp [get_total_hits, herr, Except.map]

/-- Witness for C6 on `1minute`, `count = 2`, anchor `t = 130`, empty store. -/
theorem missing_fields_zero_total_witness :
    parse_result none = 0 ∧
    (∃ l : List (Int × Int),
      get_hits ts0 store0 ("event:123") ("1minute") 2 130 = .ok l ∧
      (∀ pr ∈ l,
        store0.hashes
          (key_join ts0.base_key ("1minute") (round_time pr.1 3600) ("event:123"))
          pr.1 = none → pr.2 = 0) ∧
      get_total_hits ts0 store0 ("event:123") ("1minute") 2 130 =
        .ok ((l.map Prod.snd).sum)) ∧
    (∀ (err : Err) (e2 : TS) (s2 : Store) (key2 gname2 : String) (count2 : Nat)
      (t2 : Int),
      get_hits e2 s2 key2 gname2 count2 t2 = .error err →
      get_total_hits e2 s2 key2 gname2 count2 t2 = .error err) :=
  missing_fields_zero_total ts0 store0 ("event:123") ("1minute") 2 130 ⟨3600, 60⟩
    (by decide) (by decide) (by decide)

/-- Under the `OrderedDict` key-uniqueness invariant, looking up the name of a
table entry returns exactly that entry's properties. -/
lemma lookup_of_mem_nodup (tbl : GranTable) (ge : String × GranProps)
    (hnd : (tbl.map Prod.fst).Nodup) (hm : ge ∈ tbl) :
    lookupGran tbl ge.1 = some ge.2 := by
  induction tbl with
  | nil => simp at hm
  | cons x tl ih =>
      rw [List.mem_cons] at hm
      rw [List.map_cons, List.nodup_cons] at hnd
      rcases hm with hm | hm
      · subst hm
        simp [lookupGran, List.find?_cons]
      · have hne : (x.1 == ge.1) = false := by
          rw [beq_eq_false_iff_ne]
          intro hbe
          exact hnd.1 (hbe ▸ List.mem_map_of_mem Prod.fst hm)
        unfold lookupGran
        simp only [List.find?_cons, hne]
        exact ih hnd.2 hm

/-- Pointwise-equal functions give equal `flatMap`s. -/
lemma flatMap_congr_mem {α β : Type} (l : List α) (f g : α → List β)
    (h : ∀ a ∈ l, f a = g a) : l.flatMap f = l.flatMap g := by
  induction l with
  | nil => rfl
  | cons x tl ih =>
      simp only [List.flatMap_cons]
      rw [h x (by simp), ih (fun a ha => h a (by simp [ha]))]

/-- Claim C1: for every write with series name `key`, amount `cnt` and
timestamp `t`, and every granularity of the table, exactly two commands are
queued for that granularity — `HINCRBY` of the shard key's field at
`round_time t duration` by `cnt` and an `EXPIRE` of that shard key to the
granularity's ttl — and with `execute=True` the commands of all granularities
are submitted together as the single batch of the call. -/
theorem record_hit_fanout (e : TS) (s : Store) (key : String) (t cnt : Int)
    (hnd : (e.granularities.map Prod.fst).Nodup) :
    record_hit_cmds e.base_key e.granularities key t cnt =
      e.granularities.flatMap (fun ge =>
        [Cmd.hincrby (key_join e.base_key ge.1 (round_time t ge.2.ttl) key)
           (round_time t ge.2.duration) cnt,
         Cmd.expire (key_join e.base_key ge.1 (round_time t ge.2.ttl) key)
           ge.2.ttl]) ∧
    record_hit e s key t cnt true =
      (e, applyCmds s (record_hit_cmds e.base_key e.granularities key t cnt),
        [record_hit_cmds e.base_key e.granularities key t cnt]) := by
  constructor
  · unfold record_hit_cmds
    refine flatMap_congr_mem _ _ _ ?_
    intro ge hm
    have hl := lookup_of_mem_nodup _ ge hnd hm
    simp [get_key, hl]
  · rfl

/-- Witness for C1 on the default table at `t = 0`, amount 1. -/
theorem record_hit_fanout_witness :
    record_hit_cmds ts0.base_key ts0.granularities ("event:123") 0 1 =
      ts0.granularities.flatMap (fun ge =>
        [Cmd.hincrby (key_join ts0.base_key ge.1 (round_time 0 ge.2.ttl) ("event:123"))
           (round_time 0 ge.2.duration) 1,
         Cmd.expire (key_join ts0.base_key ge.1 (round_time 0 ge.2.ttl) ("event:123"))
           ge.2.ttl]) ∧
    record_hit ts0 store0 ("event:123") 0 1 true =
      (ts0, applyCmds store0 (record_hit_cmds ts0.base_key ts0.granularities
          ("event:123") 0 1),
        [record_hit_cmds ts0.base_key ts0.granularities ("event:123") 0 1]) :=
  record_hit_fanout ts0 store0 ("event:123") 0 1 (by decide)

/-- Claim C7: with a timezone configured, rounding shifts the instant by the
local offset, floors, then shifts back, so a 1-day precision aligns buckets to
local midnight (the shifted result is a whole number of days). With the US
Eastern July offset of -4 hours, `2017-07-16T03:59Z` (epoch 1500177540)
rounds at 1-day precision to `2017-07-15T04:00Z` (epoch 1500091200), and
`2017-07-16T04:00Z` (epoch 1500177600) rounds to itself. -/
theorem round_time_tz_alignment :
    (∀ off ts : Int,
      days 1 ∣ (round_time_with_tz (fun _ => off) ts (days 1) + off)) ∧
    round_time_with_tz (fun _ => -(hours 4)) 1500177540 (days 1) = 1500091200 ∧
    round_time_with_tz (fun _ => -(hours 4)) 1500177600 (days 1) = 1500177600 := by
  refine ⟨?_, by decide, by decide⟩
  intro off ts
  unfold round_time_with_tz round_time
  have hre : Int.fdiv (ts + off) (days 1) * days 1 - off + off =
      Int.fdiv (ts + off) (days 1) * days 1 := by ring
  rw [hre]
  exact dvd_mul_left (days 1) (Int.fdiv (ts + off) (days 1))

/-- Constant-clock reduction of the lazy-resolution command list. -/
lemma record_hit_now_aux_const (bk : String) (tbl : GranTable) (key : String)
    (t0 cnt : Int) : ∀ (rest : GranTable) (k : Nat),
    record_hit_now_aux bk tbl rest key (fun _ => t0) k cnt =
      rest.flatMap (fun e =>
        match get_key bk tbl key t0 e.1 with
        | .error _ => []
        | .ok hkey =>
            [Cmd.hincrby hkey (round_time t0 e.2.duration) cnt,
             Cmd.expire hkey e.2.ttl]) := by
  intro rest
  induction rest with
  | nil => intro k; rfl
  | cons x tl ih =>
      intro k
      simp only [record_hit_now_aux, List.flatMap_cons, ih]

/-- Claim C9, counterexample: the claim that an omitted timestamp is resolved
to the current time exactly once, with that single instant used for both the
shard key and the bucket of every granularity, is false of the code: under a
clock that advances from instant 0 to instant 3600 between the two `tz_now()`
calls of the single granularity, the queued commands match no single-instant
run — the shard key was derived from instant 0 while the bucket was derived
from instant 3600, which no one instant can reproduce. -/
theorem record_hit_now_not_single_instant :
    ¬ ∃ t0 : Int, record_hit_cmds_now ("stats") tblOne ("k") clockTick 1 =
      record_hit_cmds ("stats") tblOne ("k") t0 1 := by
  rintro ⟨t0, h⟩
  have hL : record_hit_cmds_now ("stats") tblOne ("k") clockTick 1 =
      [Cmd.hincrby ("stats:1minute:0:k") 3600 1,
       Cmd.expire ("stats:1minute:0:k") 3600] := by decide
  have hR : record_hit_cmds ("stats") tblOne ("k") t0 1 =
      [Cmd.hincrby (key_join ("stats") ("1minute") (round_time t0 3600) ("k"))
         (round_time t0 60) 1,
       Cmd.expire (key_join ("stats") ("1minute") (round_time t0 3600) ("k"))
         3600] := rfl
  rw [hL, hR] at h
  simp only [List.cons.injEq, Cmd.hincrby.injEq, Cmd.expire.injEq] at h
  obtain ⟨⟨hk, hb, -⟩, -⟩ := h
  have hq : t0 / 60 = 60 := by
    have hb2 : Int.fdiv t0 60 * 60 = 60 * 60 := by
      unfold round_time at hb
      linarith [hb]
    have hb3 : Int.fdiv t0 60 = 60 :=
      mul_right_cancel₀ (by decide : (60 : Int) ≠ 0) hb2
    rw [← Int.fdiv_eq_ediv t0 (by decide : (0 : Int) ≤ 60)]
    exact hb3
  have hlow : (3600 : Int) ≤ t0 := by
    have := (Int.le_ediv_iff_mul_le (by decide : (0 : Int) < 60)).mp
      (le_of_eq hq.symm)
    linarith
  have hhigh : t0 < 3660 := by
    have h61 : t0 / 60 < 61 := by omega
    have := (Int.ediv_lt_iff_lt_mul (by decide : (0 : Int) < 60)).mp h61
    linarith
  have h36 : Int.fdiv t0 3600 = 1 := by
    rw [Int.fdiv_eq_ediv t0 (by decide : (0 : Int) ≤ 3600)]
    have hle1 : 1 ≤ t0 / 3600 :=
      (Int.le_ediv_iff_mul_le (by decide : (0 : Int) < 3600)).mpr (by linarith)
    have hlt2 : t0 / 3600 < 2 :=
      (Int.ediv_lt_iff_lt_mul (by decide : (0 : Int) < 3600)).mpr (by linarith)
    omega
  have hr36 : round_time t0 3600 = 3600 := by
    unfold round_time
    rw [h36]
    norm_num
  rw [hr36] at hk
  exact absurd hk (by decide)

/-- Claim C9, amended: when the timestamp is omitted, it is not resolved once;
each `round_time` call resolves the current time independently — two
resolutions per granularity, one inside `get_key` and one for the bucket — and
when every resolution observes the same instant, the queued commands are
exactly those of a call with that instant passed explicitly. -/
theorem record_hit_now_constant_clock (bk : String) (tbl : GranTable)
    (key : String) (t0 cnt : Int) :
    record_hit_cmds_now bk tbl key (fun _ => t0) cnt =
      record_hit_cmds bk tbl key t0 cnt := by
  unfold record_hit_cmds_now record_hit_cmds
  exact record_hit_now_aux_const bk tbl key t0 cnt tbl 0

/-- Claim C10: the read operations (`get_hits`, `get_total_hits`, `scan_keys`)
and `record_hit` with `execute=True` leave the deferred chain unchanged: the
immediate write returns the engine state as it was and submits only its own
freshly built batch (never the chain, whatever it holds), and the reads —
which in this translation return no modified engine state or store at all,
mirroring that they operate on a fresh pipeline — have results independent of
the chain's contents. -/
theorem reads_and_immediate_writes_preserve_chain (e : TS) (s : Store)
    (key gname search : String) (count : Nat) (t cnt : Int) (c c2 : List Cmd) :
    ((record_hit e s key t cnt true).1 = e ∧
      (record_hit e s key t cnt true).2.2 =
        [record_hit_cmds e.base_key e.granularities key t cnt]) ∧
    get_hits { e with chain := c } s key gname count t =
      get_hits { e with chain := c2 } s key gname count t ∧
    get_total_hits { e with chain := c } s key gname count t =
      get_total_hits { e with chain := c2 } s key gname count t ∧
    scan_keys { e with chain := c } s gname count search t =
      scan_keys { e with chain := c2 } s gname count search t :=
  ⟨⟨rfl, rfl⟩, rfl, rfl, rfl⟩

end RedisTimeseries
